import Mathlib

set_option maxRecDepth 8000

namespace DaggerPoms

/-!
Shallow embedding of the Maven POM tooling of the square/dagger repository:
`util/maven/workspace_parser.py`, `util/maven/xml_formatting.py`,
`util/maven/generate_poms.py` and `tools/maven_sha1_test.py`.

Python strings are modelled as Lean `String`; Python `dict`s as association
lists where insertion prepends (so lookup, which scans from the head, sees
the most recent binding, matching dict update semantics); Python `set`s as
duplicate-free lists (iteration order of a Python set is arbitrary, and every
theorem below is insensitive to that order); exceptions as `Except PyError`.
-/

/-- The Python errors that the scripts can raise. -/
inductive PyError where
  | attributeError
  | typeError
  | valueError
  | keyError
  | unknownDependency (msg : String)
deriving DecidableEq

deriving instance DecidableEq for Except

/-! ## Python string primitives -/

/-- Python `str.split(sep)` for a one-character separator, on char lists.
`split` keeps empty fields, and the empty string yields `[[]]`. -/
def splitOnChar (sep : Char) : List Char → List (List Char)
  | [] => [[]]
  | c :: rest =>
    if c = sep then [] :: splitOnChar sep rest
    else
      match splitOnChar sep rest with
      | [] => [[c]]
      | l :: ls => (c :: l) :: ls

/-- Python `str.split(sep)` on `String`. -/
def pySplit (sep : Char) (s : String) : List String :=
  (splitOnChar sep s.data).map String.mk

/-- Python `sep.join(xs)`. -/
def pyJoin (sep : String) : List String → String
  | [] => ""
  | [x] => x
  | x :: y :: ys => x ++ sep ++ pyJoin sep (y :: ys)

/-! ## Substring utilities (used to state the claims about rendered XML) -/

/-- `isLeadOf n h` : the list `n` is an initial segment of `h`. -/
def isLeadOf : List Char → List Char → Bool
  | [], _ => true
  | _ :: _, [] => false
  | a :: xs, b :: ys => a == b && isLeadOf xs ys

/-- Does `needle` occur as a contiguous run inside the haystack? -/
def containsSubList (needle : List Char) : List Char → Bool
  | [] => isLeadOf needle []
  | c :: rest => isLeadOf needle (c :: rest) || containsSubList needle rest

/-- Substring test on `String`. -/
def containsSub (needle hay : String) : Bool :=
  containsSubList needle.data hay.data

/-- Tail-recursive worker for occurrence counting. -/
def countFrom (needle : List Char) (acc : Nat) : List Char → Nat
  | [] => if isLeadOf needle [] then Nat.succ acc else acc
  | c :: rest =>
    if isLeadOf needle (c :: rest) then countFrom needle (Nat.succ acc) rest
    else countFrom needle acc rest

/-- Number of positions at which `needle` occurs in the haystack. -/
def countSubList (needle hay : List Char) : Nat :=
  countFrom needle 0 hay

/-- Occurrence count on `String`. -/
def countSub (needle hay : String) : Nat :=
  countSubList needle.data hay.data

/-! ## xml_formatting.py -/

/-- String constants used below (kept as named definitions). -/
def nlc : Char := '\n'

def colonc : Char := ':'

def nl : String := "\n"

def sp4 : String := "    "

def jarStr : String := "jar"

/-- The literal pieces of the two dependency-block templates, between the
`%s` slots. -/
def dSeg1 : String := "<dependency>\n  <groupId>"

def dSeg2 : String := "</groupId>\n  <artifactId>"

def dSeg3 : String := "</artifactId>\n  <version>"

def dSeg4 : String := "</version>\n</dependency>"

def cSeg4 : String := "</version>\n  <type>"

def cSeg5 : String := "</type>\n  <classifier>"

def cSeg6 : String := "</classifier>\n</dependency>"

/-- `DEP_BLOCK` of xml_formatting.py, already `%`-substituted with the three
fields (the source template is `.strip()`ped, so no surrounding newlines). -/
def depBlockText (g a v : String) : String :=
  dSeg1 ++ g ++ dSeg2 ++ a ++ dSeg3 ++ v ++ dSeg4

/-- `CLASSIFIER_DEP_BLOCK` of xml_formatting.py, `%`-substituted. -/
def classifierDepBlockText (g a v t c : String) : String :=
  dSeg1 ++ g ++ dSeg2 ++ a ++ dSeg3 ++ v ++ cSeg4 ++ t ++ cSeg5 ++ c ++ cSeg6

/-- `'\n'.join(['    %s' % x for x in formatted.split('\n')])` -/
def indentLines (s : String) : String :=
  pyJoin nl ((pySplit nlc s).map (fun x => sp4 ++ x))

/-- `maven_dependency_xml` of xml_formatting.py.
The source tests `artifact_string.count(':') is 2` and picks `DEP_BLOCK`
(needing exactly 3 `%s` arguments, always satisfied when there are 2 colons)
or `CLASSIFIER_DEP_BLOCK` (5 `%s` arguments); the `%`-format raises
`TypeError` when the tuple built from `split(':')` does not have exactly the
arity of the chosen template. -/
def mavenDependencyXml (s : String) : Except PyError String :=
  match pySplit colonc s with
  | [g, a, v] => Except.ok (indentLines (depBlockText g a v))
  | [g, a, v, t, c] => Except.ok (indentLines (classifierDepBlockText g a v t c))
  | _ => Except.error PyError.typeError

/-- Metadata record (one value of the `METADATA` dict of generate_poms.py):
`name` and `artifact` are always present there, `packaging` defaults to
`"jar"` via `.get`, and `manual_dependencies` defaults to `[]`. -/
structure Metadata where
  name : String
  artifact : String
  packaging : Option String
  manualDependencies : List String
deriving DecidableEq

/-- `mapExcept f l` : Python iteration applying `f` to each element,
propagating the first raised exception. -/
def mapExcept {α β : Type} (f : α → Except PyError β) : List α → Except PyError (List β)
  | [] => Except.ok []
  | a :: l =>
    match f a with
    | Except.error e => Except.error e
    | Except.ok b =>
      match mapExcept f l with
      | Except.error e => Except.error e
      | Except.ok bs => Except.ok (b :: bs)

/-- `POM_OUTLINE` of xml_formatting.py with its `{…}` slots substituted
(`group`, `artifact`, `name`, `version`, `packaging`, `deps`). -/
def pomOutlineText (group artifact name version packaging deps : String) : String :=
  "<?xml version=\"1.0\" encoding=\"UTF-8\"?>\n<!--\n Copyright (C) 2012 The Dagger Authors.\n\n  Licensed under the Apache License, Version 2.0 (the \"License\");\n  you may not use this file except in compliance with the License.\n  You may obtain a copy of the License at\n\n       http://www.apache.org/licenses/LICENSE-2.0\n\n  Unless required by applicable law or agreed to in writing, software\n  distributed under the License is distributed on an \"AS IS\" BASIS,\n  WITHOUT WARRANTIES OR CONDITIONS OF ANY KIND, either express or implied.\n  See the License for the specific language governing permissions and\n  limitations under the License.\n-->\n<project xmlns=\"http://maven.apache.org/POM/4.0.0\" xmlns:xsi=\"http://www.w3.org/2001/XMLSchema-instance\" xsi:schemaLocation=\"http://maven.apache.org/POM/4.0.0 http://maven.apache.org/maven-v4_0_0.xsd\">\n  <modelVersion>4.0.0</modelVersion>\n\n  <parent>\n    <groupId>org.sonatype.oss</groupId>\n    <artifactId>oss-parent</artifactId>\n    <version>7</version>\n  </parent>\n\n  <groupId>" ++
    group ++ "</groupId>\n  <artifactId>" ++ artifact ++
    "</artifactId>\n  <name>" ++ name ++ "</name>\n  <version>" ++ version ++
    "</version>\n  <description>A fast dependency injector for Android and Java.</description>\n  <url>https://github.com/google/dagger</url>\n  <packaging>" ++
    packaging ++
    "</packaging>\n\n  <scm>\n    <url>http://github.com/google/dagger/</url>\n    <connection>scm:git:git://github.com/google/dagger.git</connection>\n    <developerConnection>scm:git:ssh://git@github.com/google/dagger.git</developerConnection>\n    <tag>HEAD</tag>\n  </scm>\n\n  <issueManagement>\n    <system>GitHub Issues</system>\n    <url>http://github.com/google/dagger/issues</url>\n  </issueManagement>\n\n  <licenses>\n    <license>\n      <name>Apache 2.0</name>\n      <url>http://www.apache.org/licenses/LICENSE-2.0.txt</url>\n    </license>\n  </licenses>\n\n  <organization>\n    <name>Google, Inc.</name>\n    <url>http://www.google.com</url>\n  </organization>\n\n  <dependencies>\n" ++
    deps ++ "\n  </dependencies>\n</project>\n"

/-- `generate_pom` of xml_formatting.py.  Note the source line
`group, artifact, version = artifact_string.split(':')` rebinds `version`:
the function parameter `version` is dead from that point on (the tuple
unpacking raises `ValueError` unless the split has exactly 3 fields). -/
def generatePom (artifactString : String) (metadata : Metadata)
    (deps : List String) (version : String) : Except PyError String :=
  match pySplit colonc artifactString with
  | [group, artifact, version2] =>
    match mapExcept mavenDependencyXml (deps ++ metadata.manualDependencies) with
    | Except.error e => Except.error e
    | Except.ok blocks =>
      Except.ok (pomOutlineText group artifact metadata.name version2
        (metadata.packaging.getD jarStr) (pyJoin nl blocks))
  | _ => Except.error PyError.valueError

/-! ## A model of the Python `ast` fragment that the two visitors see

`ast.NodeVisitor.generic_visit` performs a depth-first walk and dispatches
`visit_Call` on every `ast.Call` node (neither visitor recurses through
`generic_visit` from inside `visit_Call`, and in a WORKSPACE-style file the
dependency declarations are top-level calls).  A parsed file is therefore
modelled by the list of call nodes the walk encounters, in order. -/

/-- A keyword-argument value: a string literal (`ast.Str`, carrying `.s`) or
any other expression, whose `.s` access raises `AttributeError`. -/
inductive PyExpr where
  | strLit (s : String)
  | nonLiteral
deriving DecidableEq

/-- One `keyword` node: `arg` is `none` for `**kwargs`. -/
structure PyKeyword where
  arg : Option String
  value : PyExpr
deriving DecidableEq

/-- The `func` of a call: a plain `ast.Name` (with `.id`) or anything else
(e.g. `ast.Attribute`), whose `.id` access raises `AttributeError`. -/
inductive PyFunc where
  | name (id : String)
  | attr
deriving DecidableEq

/-- One `ast.Call` node. -/
structure PyCall where
  func : PyFunc
  keywords : List PyKeyword
deriving DecidableEq

/-- String constants of the scripts. -/
def mavenJarStr : String := "maven_jar"

def nameKw : String := "name"

def artifactKw : String := "artifact"

def sha1Kw : String := "sha1"

/-- Python `'%s' % x` where `x` is a string or `None`. -/
def pyFormatOpt : Option String → String
  | some s => s
  | none => "None"

/-- `'@%s//jar:jar' % name` -/
def mkJarLabel (name : Option String) : String :=
  "@" ++ pyFormatOpt name ++ "//jar:jar"

/-! ## Association lists as Python dicts
Insertion prepends and lookup scans from the head, so the most recent
binding for a key wins, as for a dict assignment. -/

/-- Dict lookup (`m[k]` / `k in m`). -/
def lookupKV {α : Type} : List (String × α) → String → Option α
  | [], _ => none
  | (k, v) :: rest, key => if k = key then some v else lookupKV rest key

/-- Dict assignment `m[k] = v`. -/
def insertKV {α : Type} (m : List (String × α)) (k : String) (v : α) :
    List (String × α) :=
  (k, v) :: m

/-! ## workspace_parser.py -/

/-- `keyword.value.s`: succeeds only on a string literal. -/
def kwString : PyExpr → Except PyError String
  | PyExpr.strLit s => Except.ok s
  | PyExpr.nonLiteral => Except.error PyError.attributeError

/-- The keyword loop of `WorkspaceVisitor.visit_Call`: two successive `if`s
update the `name` and `artifact` locals (one keyword's `arg` can match at
most one of the two tests, so sequential `if`/`else if` is equivalent). -/
def collectNameArtifact :
    List PyKeyword → Option String → Option String →
      Except PyError (Option String × Option String)
  | [], name, artifact => Except.ok (name, artifact)
  | kw :: rest, name, artifact =>
    if kw.arg = some nameKw then
      match kwString kw.value with
      | Except.error e => Except.error e
      | Except.ok s => collectNameArtifact rest (some s) artifact
    else if kw.arg = some artifactKw then
      match kwString kw.value with
      | Except.error e => Except.error e
      | Except.ok s => collectNameArtifact rest name (some s)
    else collectNameArtifact rest name artifact

/-- `WorkspaceVisitor.visit_Call` of workspace_parser.py acting on the
`artifacts` dict.  `rule.func.id` raises `AttributeError` unless the callee
is a plain name; the identity test `is not 'maven_jar'` behaves as string
inequality on interned identifiers.  Note the dict assignment
`self.artifacts['@%s//jar:jar' % name] = artifact` is unconditional: it runs
even when `artifact` (or `name`) is still `None`. -/
def visitCallWs (artifacts : List (String × Option String)) (rule : PyCall) :
    Except PyError (List (String × Option String)) :=
  match rule.func with
  | PyFunc.attr => Except.error PyError.attributeError
  | PyFunc.name id =>
    if id = mavenJarStr then
      match collectNameArtifact rule.keywords none none with
      | Except.error e => Except.error e
      | Except.ok (name, artifact) =>
        Except.ok (insertKV artifacts (mkJarLabel name) artifact)
    else Except.ok artifacts

/-- The visitor walk over all call nodes of the parsed file. -/
def wsScanCalls (calls : List PyCall) (artifacts : List (String × Option String)) :
    Except PyError (List (String × Option String)) :=
  match calls with
  | [] => Except.ok artifacts
  | c :: rest =>
    match visitCallWs artifacts c with
    | Except.error e => Except.error e
    | Except.ok artifacts2 => wsScanCalls rest artifacts2

/-- `maven_artifacts` of workspace_parser.py, as a function of the call
nodes found in the parsed WORKSPACE file. -/
def mavenArtifacts (calls : List PyCall) :
    Except PyError (List (String × Option String)) :=
  wsScanCalls calls []

/-! ## tools/maven_sha1_test.py -/

/-- The keyword loop of the sha1 checker's `visit_Call`: returns `none`
when a `sha1` keyword is reached (the Python `return`), else the final value
of the `name` local after the whole loop. -/
def shaScanKeywords :
    List PyKeyword → Option String → Except PyError (Option (Option String))
  | [], name => Except.ok (some name)
  | kw :: rest, name =>
    if kw.arg = some sha1Kw then Except.ok none
    else if kw.arg = some nameKw then
      match kwString kw.value with
      | Except.error e => Except.error e
      | Except.ok s => shaScanKeywords rest (some s)
    else shaScanKeywords rest name

/-- `WorkspaceVisitor.visit_Call` of maven_sha1_test.py acting on the
`missing_sha1` list (`.append(name)` appends, even when `name` is `None`). -/
def shaVisitCall (missing : List (Option String)) (rule : PyCall) :
    Except PyError (List (Option String)) :=
  match rule.func with
  | PyFunc.attr => Except.error PyError.attributeError
  | PyFunc.name id =>
    if id = mavenJarStr then
      match shaScanKeywords rule.keywords none with
      | Except.error e => Except.error e
      | Except.ok none => Except.ok missing
      | Except.ok (some name) => Except.ok (missing ++ [name])
    else Except.ok missing

/-- The walk of the sha1 checker's visitor. -/
def shaScanCalls (calls : List PyCall) (missing : List (Option String)) :
    Except PyError (List (Option String)) :=
  match calls with
  | [] => Except.ok missing
  | c :: rest =>
    match shaVisitCall missing c with
    | Except.error e => Except.error e
    | Except.ok missing2 => shaScanCalls rest missing2

/-- `', '.join` over the collected names: Python `str.join` raises
`TypeError` as soon as an element is `None`. -/
def optJoinable : List (Option String) → Option (List String)
  | [] => some []
  | none :: _ => none
  | some s :: rest =>
    match optJoinable rest with
    | none => none
    | some l => some (s :: l)

/-- Outcome of a unittest check: success or `self.fail(msg)`. -/
inductive TestResult where
  | pass
  | fail (msg : String)
deriving DecidableEq

/-- The separator and suffix of the failure message. -/
def commaSep : String := ", "

def sha1MsgSuffix : String := " did not specify a sha1"

/-- `MavenSha1Test.test_each_maven_jar_rule_has_sha1`, as a function of the
call nodes of the parsed WORKSPACE file. -/
def sha1TestOutcome (calls : List PyCall) : Except PyError TestResult :=
  match shaScanCalls calls [] with
  | Except.error e => Except.error e
  | Except.ok missing =>
    if missing.length > 0 then
      match optJoinable missing with
      | none => Except.error PyError.typeError
      | some names =>
        Except.ok (TestResult.fail (pyJoin commaSep names ++ sha1MsgSuffix))
    else Except.ok TestResult.pass

/-! ## generate_poms.py -/

def GROUP : String := "com.google.dagger"

/-- The static `METADATA` table of generate_poms.py (keys are distinct, so
the dict is faithfully an association list). -/
def METADATA : List (String × Metadata) :=
  [ ( "//java/dagger:core", ⟨ "Dagger", "dagger", none, []⟩),
    ( "//gwt:gwt", ⟨ "Dagger GWT", "dagger-gwt", none,
      [ "com.google.dagger:dagger:${project.version}",
       "com.google.dagger:dagger:${project.version}:jar:sources",
       "javax.inject:javax.inject:1:jar:sources"]⟩),
    ( "//java/dagger/internal/codegen:codegen",
      ⟨ "Dagger Compiler", "dagger-compiler", none, []⟩),
    ( "//java/dagger/producers:producers",
      ⟨ "Dagger Producers", "dagger-producers", none, []⟩),
    ( "//java/dagger/android:android",
      ⟨ "Dagger Android", "dagger-android", some "aar", []⟩),
    ( "//java/dagger/android/support:support",
      ⟨ "Dagger Android Support", "dagger-android-support", some "aar", []⟩),
    ( "//java/dagger/android/processor:processor",
      ⟨ "Dagger Android Processor", "dagger-android-processor", none, []⟩),
    ( "//java/dagger/grpc/server:server",
      ⟨ "Dagger gRPC Server", "dagger-grpc-server", none, []⟩),
    ( "//java/dagger/grpc/server:annotations",
      ⟨ "Dagger gRPC Server annotations", "dagger-grpc-server-annotations", none, []⟩),
    ( "//java/dagger/grpc/server/processor:processor",
      ⟨ "Dagger gRPC Server processor", "dagger-grpc-server-processor", none, []⟩),
    ( "//java/dagger/android:libandroid.jar",
      ⟨ "Dagger Android (Jar Impl)", "dagger-android-jarimpl", none, []⟩),
    ( "//java/dagger/android/support:libsupport.jar",
      ⟨ "Dagger Android Support (Jar Impl)", "dagger-android-support-jarimpl", none, []⟩) ]

/-- Python `str.startswith`. -/
def strStarts (s p : String) : Bool :=
  isLeadOf p.data s.data

/-- The build graph as seen through the two `bazel query` shell-outs:
`deps_of` models `labels(deps, l) except attr(tags, "maven:…")` and
`exports_for` models `labels(exports, l)`. -/
structure Graph where
  depsOf : String → List String
  exportsFor : String → List String

/-- Python `set.add` on a duplicate-free list. -/
def setAdd (s : List String) (x : String) : List String :=
  if x ∈ s then s else s ++ [x]

/-- Python `set.update` on duplicate-free lists. -/
def setUnion (s t : List String) : List String :=
  t.foldl setAdd s

def jdkLabel : String := "@local_jdk//:"

def rootLabel : String := "//:"

def thirdPartyLabel : String := "//third_party:"

/-- `pom_deps` of generate_poms.py.  The Python recursion is unbounded (it
would not terminate on a cyclic `exports` graph); `fuel` bounds the
recursion depth and every theorem below holds for every fuel value. -/
def pomDeps (g : Graph) : Nat → String → List String
  | 0, _ => []
  | Nat.succ n, label =>
    (g.depsOf label).foldl
      (fun acc dep =>
        if strStarts dep jdkLabel then acc
        else if strStarts dep rootLabel || strStarts dep thirdPartyLabel then
          (g.exportsFor dep).foldl
            (fun acc2 e => setUnion (setAdd acc2 e) (pomDeps g n e)) acc
        else setAdd acc dep)
      []

/-- Python `<` on strings: lexicographic, character by character (Python 2
compares byte strings; for UTF-8 data byte order equals code-point
order). -/
def pyStrLtList : List Char → List Char → Bool
  | [], [] => false
  | [], _ :: _ => true
  | _ :: _, [] => false
  | a :: xs, b :: ys =>
    if a.toNat < b.toNat then true
    else if b.toNat < a.toNat then false
    else pyStrLtList xs ys

def pyStrLt (a b : String) : Bool :=
  pyStrLtList a.data b.data

/-- Python `<` on lists of strings (lexicographic over element compares). -/
def pyListLt : List String → List String → Bool
  | [], [] => false
  | [], _ :: _ => true
  | _ :: _, [] => false
  | x :: xs, y :: ys =>
    if pyStrLt x y then true
    else if pyStrLt y x then false
    else pyListLt xs ys

/-- `dependencies_comparator` of generate_poms.py. -/
def emptyStr : String := ""

def dependenciesComparator (first second : String) : Int :=
  if first = second then 0
  else
    let f := pySplit colonc first
    let s := pySplit colonc second
    if f.headD emptyStr = GROUP ∧ ¬s.headD emptyStr = GROUP then -1
    else if s.headD emptyStr = GROUP ∧ ¬f.headD emptyStr = GROUP then 1
    else if pyListLt f s then -1 else 1

/-! ## The android SDK pattern

`re.match(r'@androidsdk//([a-z.-]*):([a-z0-9-]*)-([0-9.]*)', label)`.
`re.match` anchors at the start only.  Backtracking works out as follows:
`'\x3a'` is not in `[a-z.-]`, so group 1 is exactly the maximal `[a-z.-]`
run, which must be followed by a literal colon; `'-'` IS in `[a-z0-9-]`, so
the greedy group 2 backtracks to the LAST `'-'` inside the maximal
`[a-z0-9-]` run; group 3 is the maximal `[0-9.]` run after that dash (the
run may continue past the `[a-z0-9-]` run, e.g. into a `'.'`). -/

def isSdkGroupChar (c : Char) : Bool :=
  ('a' ≤ c && c ≤ 'z') || c = '.' || c = '-'

def isSdkNameChar (c : Char) : Bool :=
  ('a' ≤ c && c ≤ 'z') || ('0' ≤ c && c ≤ '9') || c = '-'

def isSdkVersionChar (c : Char) : Bool :=
  ('0' ≤ c && c ≤ '9') || c = '.'

/-- Strip an exact leading run of characters, returning the remainder. -/
def dropLead : List Char → List Char → Option (List Char)
  | [], l => some l
  | _ :: _, [] => none
  | p :: ps, c :: cs => if c = p then dropLead ps cs else none

/-- Split a char list at its LAST `'-'`: `(before, after)`. -/
def splitAtLastDash : List Char → Option (List Char × List Char)
  | [] => none
  | c :: rest =>
    match splitAtLastDash rest with
    | some (b, a) => some (c :: b, a)
    | none => if c = '-' then some ([], rest) else none

def androidSdkLead : String := "@androidsdk//"

/-- The match of the android SDK pattern, returning `':'.join(match.groups())`
when the pattern matches at the start of the label. -/
def androidSdkMatch (label : String) : Option String :=
  match dropLead androidSdkLead.data label.data with
  | none => none
  | some rest =>
    let g1 := rest.takeWhile isSdkGroupChar
    match rest.dropWhile isSdkGroupChar with
    | ':' :: rest2 =>
      let run2 := rest2.takeWhile isSdkNameChar
      let tail2 := rest2.dropWhile isSdkNameChar
      match splitAtLastDash run2 with
      | none => none
      | some (g2, afterDash) =>
        let g3 := (afterDash ++ tail2).takeWhile isSdkVersionChar
        some (String.mk g1 ++ ":" ++ String.mk g2 ++ ":" ++ String.mk g3)
    | _ => none

/-- The merge loop of `main`:
`artifacts[label] = 'com.google.dagger:%s:%s' % (metadata['artifact'], version)`
for every METADATA entry, on top of the workspace-declared artifacts. -/
def mdCoordOf (artifact version : String) : String :=
  "com.google.dagger:" ++ artifact ++ ":" ++ version

def combinedArtifacts (wsArtifacts : List (String × Option String))
    (version : String) : List (String × Option String) :=
  METADATA.foldl
    (fun acc p => insertKV acc p.1 (some (mdCoordOf p.2.artifact version)))
    wsArtifacts

/-- `'No artifact found for %s' % label` -/
def noArtifactMsg (label : String) : String :=
  "No artifact found for " ++ label

/-- `artifact_for_dep` of generate_poms.py: direct dict lookup first, then
the android SDK pattern, otherwise `UnknownDependencyException`. -/
def artifactForDep (artifacts : List (String × Option String)) (label : String) :
    Except PyError (Option String) :=
  match lookupKV artifacts label with
  | some v => Except.ok v
  | none =>
    match androidSdkMatch label with
    | some coord => Except.ok (some coord)
    | none => Except.error (PyError.unknownDependency (noArtifactMsg label))

/-- `deps.sort(cmp=dependencies_comparator)` (the comparator is a total
order on distinct strings, so any correct sort realises it). -/
def sortDeps (deps : List String) : List String :=
  deps.mergeSort (fun a b => dependenciesComparator a b ≤ 0)

/-- Result of processing one command-line target in `main`'s loop:
`created` lists files opened in `'w'` mode (created/truncated on open), and
`outcome` is the written `(filename, content)` or the exception escaping the
loop body. -/
structure TargetRun where
  created : List String
  outcome : Except PyError (String × String)
deriving DecidableEq

def pomSuffix : String := ".pom.xml"

/-- The body of `main`'s `for arg in sys.argv[2:]` loop for one target.
Order of effects, as in the source: the `METADATA[arg]` lookup, then
`open('%s.pom.xml' % …, 'w')` (which creates the file), then
`map(artifact_for_dep, pom_deps(arg))`, then the sort, then
`generate_pom(artifacts[arg], …)`, and only then the write.
A `None` artifact value surviving into `deps` raises `AttributeError`
(`None.split`/`None.count`) during the sort or the render. -/
def processTarget (g : Graph) (fuel : Nat)
    (wsArtifacts : List (String × Option String)) (version : String)
    (arg : String) : TargetRun :=
  let artifacts := combinedArtifacts wsArtifacts version
  match lookupKV METADATA arg with
  | none => ⟨[], Except.error PyError.keyError⟩
  | some metadata =>
    let fname := metadata.artifact ++ pomSuffix
    match mapExcept (artifactForDep artifacts) (pomDeps g fuel arg) with
    | Except.error e => ⟨[fname], Except.error e⟩
    | Except.ok optDeps =>
      if optDeps.any (fun d => d.isNone) then
        ⟨[fname], Except.error PyError.attributeError⟩
      else
        let deps := sortDeps (optDeps.filterMap id)
        match lookupKV artifacts arg with
        | none => ⟨[fname], Except.error PyError.keyError⟩
        | some none => ⟨[fname], Except.error PyError.attributeError⟩
        | some (some coord) =>
          match generatePom coord metadata deps version with
          | Except.error e => ⟨[fname], Except.error e⟩
          | Except.ok content => ⟨[fname], Except.ok (fname, content)⟩

/-! ## Specification-side helper definitions (used to state the claims) -/

/-- Is the call a `maven_jar(...)` declaration? -/
def isMavenJarB (c : PyCall) : Bool :=
  match c.func with
  | PyFunc.name id => decide (id = mavenJarStr)
  | PyFunc.attr => false

/-- Does the call carry a `sha1` keyword? -/
def hasSha1B (c : PyCall) : Bool :=
  c.keywords.any (fun kw => decide (kw.arg = some sha1Kw))

/-- The literal string values of the call's `name` keywords, in order. -/
def namesOf (kws : List PyKeyword) : List String :=
  kws.filterMap (fun kw =>
    if kw.arg = some nameKw then
      match kw.value with
      | PyExpr.strLit s => some s
      | PyExpr.nonLiteral => none
    else none)

/-- The name the checker associates with a declaration: the value of its
last literal `name` keyword. -/
def declaredName (c : PyCall) : Option String :=
  (namesOf c.keywords).getLast?

/-- The names of the `maven_jar` declarations lacking a `sha1` keyword, in
document order (dropping any nameless ones). -/
def missingNames (calls : List PyCall) : List String :=
  calls.filterMap (fun c =>
    if isMavenJarB c && !hasSha1B c then declaredName c else none)

/-- Entries the sha1 checker's visitor appends, one per `maven_jar` call
lacking `sha1` (possibly `none` for a nameless declaration). -/
def missingEntries (calls : List PyCall) : List (Option String) :=
  calls.filterMap (fun c =>
    if isMavenJarB c && !hasSha1B c then some (declaredName c) else none)

/-- Are all `name` keyword values of the call literal strings? -/
def namesLiteralB (c : PyCall) : Bool :=
  c.keywords.all (fun kw =>
    if kw.arg = some nameKw then
      match kw.value with
      | PyExpr.strLit _ => true
      | PyExpr.nonLiteral => false
    else true)

/-- Inputs on which the sha1 checker runs without raising: every call's
function is a plain name, and every `maven_jar` call has literal-string
`name` values and, when it lacks `sha1`, at least one `name` keyword. -/
def safeCallsB (calls : List PyCall) : Bool :=
  calls.all (fun c =>
    (match c.func with
     | PyFunc.name _ => true
     | PyFunc.attr => false) &&
    (if isMavenJarB c then
      namesLiteralB c && (hasSha1B c || (declaredName c).isSome)
     else true))

/-- Are all `name` and `artifact` keyword values of the call literal
strings? -/
def wsLiteralB (c : PyCall) : Bool :=
  c.keywords.all (fun kw =>
    if kw.arg = some nameKw ∨ kw.arg = some artifactKw then
      match kw.value with
      | PyExpr.strLit _ => true
      | PyExpr.nonLiteral => false
    else true)

/-- Inputs on which the workspace parser's traversal runs without raising:
every call's function is a plain name and `name`/`artifact` values are
literal strings. -/
def wsSafeB (calls : List PyCall) : Bool :=
  calls.all (fun c =>
    (match c.func with
     | PyFunc.name _ => true
     | PyFunc.attr => false) && wsLiteralB c)

/-- A string made only of ordinary coordinate characters: no `'<'` (so it
cannot fake an XML tag) and no newline (so indentation keeps lines whole). -/
def cleanStr (s : String) : Bool :=
  s.data.all (fun c => !(c == '<') && !(c == nlc))

/-- Character-level view of the line indentation performed by
`indentLines`: four spaces at the start and after every newline.  Used only
in proofs, via `indentLines_data`. -/
def indentInsert : List Char → List Char
  | [] => []
  | c :: t =>
    if c = nlc then c :: (' ' :: ' ' :: ' ' :: ' ' :: indentInsert t)
    else c :: indentInsert t

/-! ## Concrete inputs used by counterexamples and witnesses -/

/-- A graph in which the only dependency of `//java/dagger:core` is a label
declared nowhere. -/
def gUnknownDep : Graph :=
  ⟨fun l => if l = "//java/dagger:core" then [ "@unknownlib//jar:jar"] else [],
   fun _ => []⟩

/-- A graph in which an internal aggregation target re-exports the internal
JDK label. -/
def gJdkExport : Graph :=
  ⟨fun l => if l = "//x:x" then [ "//:agg"] else [],
   fun l => if l = "//:agg" then [ "@local_jdk//:jni"] else []⟩

/-- A graph with a single ordinary external dependency. -/
def gPlain : Graph :=
  ⟨fun l => if l = "//t:t" then [ "@guava//jar:jar"] else [],
   fun _ => []⟩

/-- The metadata record of `//java/dagger:core`. -/
def mdCore : Metadata := ⟨ "Dagger", "dagger", none, []⟩

/-- `maven_jar(name = 'guava')` — a declaration with a name but no
artifact. -/
def callNameOnly : PyCall :=
  ⟨PyFunc.name mavenJarStr, [⟨some nameKw, PyExpr.strLit "guava"⟩]⟩

/-- A parser-accepted call whose function is an attribute access
(e.g. `foo.bar()`), on which `rule.func.id` raises `AttributeError`. -/
def callAttr : PyCall := ⟨PyFunc.attr, []⟩

/-- A well-formed `maven_jar` declaration with name, artifact and sha1. -/
def callFull : PyCall :=
  ⟨PyFunc.name mavenJarStr,
   [⟨some nameKw, PyExpr.strLit "guava"⟩,
    ⟨some artifactKw, PyExpr.strLit "com.google.guava:guava:1"⟩,
    ⟨some sha1Kw, PyExpr.strLit "deadbeef"⟩]⟩

/-- `maven_jar(artifact = 'a:b:c')` — lacking both `sha1` and `name`. -/
def callNoSha1NoName : PyCall :=
  ⟨PyFunc.name mavenJarStr, [⟨some artifactKw, PyExpr.strLit "a:b:c"⟩]⟩

/-- `maven_jar(name = 'guava')` and `maven_jar(name = 'truth', sha1 = …)`:
exactly the first lacks a checksum. -/
def callsOneMissing : List PyCall :=
  [⟨PyFunc.name mavenJarStr, [⟨some nameKw, PyExpr.strLit "guava"⟩]⟩,
   ⟨PyFunc.name mavenJarStr,
    [⟨some nameKw, PyExpr.strLit "truth"⟩, ⟨some sha1Kw, PyExpr.strLit "f00"⟩]⟩]

/-- The metadata record used in the descriptor-generation check. -/
def mdX : Metadata := ⟨ "X", "x", none, []⟩

def c9coord : String := "com.google.dagger:x:1.0"

def c9dep : String := "com.google.dagger:dagger:1.0"

def ver10 : String := "1.0"

/-- The generated descriptor for coordinate `com.google.dagger:x:1.0` with
one dependency (empty string in the unreachable error case). -/
def c9out : String :=
  match generatePom c9coord mdX [c9dep] ver10 with
  | Except.ok s => s
  | Except.error _ => emptyStr

def c10coord : String := "g:a:7.7"

def ver99 : String := "9.9"

def mdN : Metadata := ⟨ "N", "a", none, []⟩

/-- A descriptor generated with version argument `"9.9"` for a coordinate
whose own version field is `"7.7"`. -/
def c10out : String :=
  match generatePom c10coord mdN [] ver99 with
  | Except.ok s => s
  | Except.error _ => emptyStr

def lblOverlap : String := "@androidsdk//x:y-1"

def overlapCoord : String := "mapped:coord:1"

/-- A mapping binding a label that ALSO matches the android SDK pattern. -/
def artsOverlap : List (String × Option String) :=
  [(lblOverlap, some overlapCoord)]

/-- What the SDK pattern alone would resolve `lblOverlap` to. -/
def sdkResolved : String := "x:y:1"

/-- Further concrete strings used in counterexamples and witnesses. -/
def guavaKey : String := "@guava//jar:jar"

def guavaStr : String := "guava"

def coreLabel : String := "//java/dagger:core"

def xLabel : String := "//x:x"

def tLabel : String := "//t:t"

def unknownLbl : String := "@unknownlib//jar:jar"

def jniLbl : String := "@local_jdk//:jni"

def daggerStr : String := "dagger"

def daggerPomFile : String := "dagger.pom.xml"

def depTag : String := "<dependency>"

def typeTag : String := "<type>"

def classifierTag : String := "<classifier>"

def artifactXTag : String := "<artifactId>x</artifactId>"

def version10Tag : String := "<version>1.0</version>"

def version77Tag : String := "<version>7.7</version>"

def cmpA : String := "a-b:x"

def cmpB : String := "a:b"

def c3bad : String := "a:b:1:jar"

def c3three : String := "g:a:1.0"

def c3five : String := "g:a:1:t:c"

def c4wa : String := "com.google.dagger:dagger:2.0"

def c4wb : String := "javax.inject:javax.inject:1"

/-- The fully rendered (indented) dependency block expected inside the
descriptor of the C9 check. -/
def c9block : String := indentLines (depBlockText GROUP daggerStr ver10)

/-! ## Lemmas: occurrence counting and substring search -/

theorem countFrom_acc (n : List Char) :
    ∀ (l : List Char) (acc : Nat), countFrom n acc l = acc + countFrom n 0 l := by
  intro l
  induction l with
  | nil =>
    intro acc
    simp only [countFrom]
    split <;> omega
  | cons c rest ih =>
    intro acc
    simp only [countFrom]
    split
    · rw [ih (Nat.succ acc), ih (Nat.succ 0)]
      omega
    · rw [ih acc]

theorem countSubList_nil (n : List Char) :
    countSubList n [] = if isLeadOf n [] then 1 else 0 := rfl

theorem countSubList_cons (n : List Char) (c : Char) (rest : List Char) :
    countSubList n (c :: rest) =
      (if isLeadOf n (c :: rest) then 1 else 0) + countSubList n rest := by
  simp only [countSubList, countFrom]
  split
  · rw [countFrom_acc]
  · omega

theorem isLeadOf_nil_false {n : List Char} (hn : n ≠ []) : isLeadOf n [] = false := by
  cases n with
  | nil => exact absurd rfl hn
  | cons a t => rfl

theorem countSubList_nil_of_ne {n : List Char} (hn : n ≠ []) : countSubList n [] = 0 := by
  rw [countSubList_nil, isLeadOf_nil_false hn]
  rfl

theorem isLeadOf_append_left {n : List Char} :
    ∀ {s : List Char} (y : List Char), isLeadOf n s = true → isLeadOf n (s ++ y) = true := by
  induction n with
  | nil => intro s y _; rfl
  | cons a n' ih =>
    intro s y h
    cases s with
    | nil => simp [isLeadOf] at h
    | cons c s' =>
      simp only [isLeadOf, Bool.and_eq_true] at h ⊢
      exact ⟨h.1, ih y h.2⟩

/-- No occurrence of `n` can span the boundary of `x ++ y` when the last
character of `x` does not occur among the first `n.length - 1` characters of
`n`: a leading match starting inside `x` behaves as in `x` alone. -/
theorem isLeadOf_append_lastChar {n : List Char} :
    ∀ {x : List Char} (y : List Char), n ≠ [] → x ≠ [] →
      (∀ ch, x.getLast? = some ch → ch ∉ n.dropLast) →
      isLeadOf n (x ++ y) = isLeadOf n x := by
  induction n with
  | nil => intro x y hn _ _; exact absurd rfl hn
  | cons a n' ih =>
    intro x y _ hx hlast
    cases x with
    | nil => exact absurd rfl hx
    | cons c x' =>
      cases n' with
      | nil =>
        cases x' with
        | nil => simp [isLeadOf]
        | cons d x'' => simp [isLeadOf]
      | cons b n'' =>
        cases x' with
        | nil =>
          have hc : c ∉ (a :: b :: n'').dropLast := hlast c rfl
          have hca : (a == c) = false := by
            rw [beq_eq_false_iff_ne]
            intro hac
            apply hc
            rw [List.dropLast_cons₂]
            rw [hac]
            exact List.mem_cons_self c _
          simp [isLeadOf, hca]
        | cons d x'' =>
          have hlast' : ∀ ch, (d :: x'').getLast? = some ch → ch ∉ (b :: n'').dropLast := by
            intro ch hch hmem
            refine hlast ch ?_ ?_
            · rw [List.getLast?_cons_cons]
              exact hch
            · rw [List.dropLast_cons₂]
              exact List.mem_cons_of_mem a hmem
          have hrec := ih y (by simp) (by simp) hlast'
          simp only [List.cons_append, isLeadOf] at hrec ⊢
          rw [hrec]

/-- Occurrence counting distributes over an append whose boundary cannot be
spanned (last-character criterion). -/
theorem countSubList_append_lastChar {n : List Char} (hn : n ≠ []) :
    ∀ (x y : List Char),
      (∀ ch, x.getLast? = some ch → ch ∉ n.dropLast) →
      countSubList n (x ++ y) = countSubList n x + countSubList n y := by
  intro x
  induction x with
  | nil =>
    intro y _
    rw [List.nil_append, countSubList_nil_of_ne hn]
    omega
  | cons c x' ih =>
    intro y hlast
    have hlast' : ∀ ch, x'.getLast? = some ch → ch ∉ n.dropLast := by
      intro ch hch
      apply hlast ch
      cases x' with
      | nil => simp at hch
      | cons d x'' => rw [List.getLast?_cons_cons]; exact hch
    have hl := isLeadOf_append_lastChar (x := c :: x') y hn (by simp) hlast
    rw [List.cons_append] at hl
    rw [List.cons_append, countSubList_cons, countSubList_cons, hl, ih y hlast']
    omega

/-- Occurrence counting distributes over an append whose boundary cannot be
spanned (needle head absent from the left part). -/
theorem countSubList_append_headNotMem {hc : Char} {n' : List Char} :
    ∀ (x y : List Char), hc ∉ x →
      countSubList (hc :: n') (x ++ y) =
        countSubList (hc :: n') x + countSubList (hc :: n') y := by
  intro x
  induction x with
  | nil =>
    intro y _
    rw [List.nil_append, countSubList_nil_of_ne (by simp)]
    omega
  | cons c x' ih =>
    intro y hmem
    have hcc : ¬(hc == c) = true := by
      intro h
      exact hmem (by simp [show hc = c by simpa using h])
    have hlead1 : isLeadOf (hc :: n') (c :: (x' ++ y)) = false := by
      simp only [isLeadOf, Bool.and_eq_false_iff]
      left
      exact (Bool.eq_false_iff).mpr hcc
    have hlead2 : isLeadOf (hc :: n') (c :: x') = false := by
      simp only [isLeadOf, Bool.and_eq_false_iff]
      left
      exact (Bool.eq_false_iff).mpr hcc
    rw [List.cons_append, countSubList_cons, countSubList_cons, hlead1, hlead2,
      ih y (fun h => hmem (List.mem_cons_of_mem c h))]
    omega

/-- A needle whose head is absent never occurs. -/
theorem countSubList_zero_headNotMem {hc : Char} {n' : List Char} :
    ∀ (l : List Char), hc ∉ l → countSubList (hc :: n') l = 0 := by
  intro l
  induction l with
  | nil => intro _; exact countSubList_nil_of_ne (by simp)
  | cons c rest ih =>
    intro hmem
    have hcc : ¬(hc == c) = true := by
      intro h
      exact hmem (by simp [show hc = c by simpa using h])
    have hlead : isLeadOf (hc :: n') (c :: rest) = false := by
      simp only [isLeadOf, Bool.and_eq_false_iff]
      left
      exact (Bool.eq_false_iff).mpr hcc
    rw [countSubList_cons, hlead, ih (fun h => hmem (List.mem_cons_of_mem c h))]
    simp

/-- The substring test agrees with a nonzero occurrence count. -/
theorem containsSubList_iff_count {n : List Char} :
    ∀ (l : List Char), containsSubList n l = true ↔ countSubList n l ≠ 0 := by
  intro l
  induction l with
  | nil =>
    rw [countSubList_nil]
    simp only [containsSubList]
    split <;> simp_all
  | cons c rest ih =>
    rw [countSubList_cons]
    simp only [containsSubList, Bool.or_eq_true]
    constructor
    · intro h
      cases h with
      | inl h => simp only [h, if_true]; omega
      | inr h => have := ih.mp h; omega
    · intro h
      by_cases hl : isLeadOf n (c :: rest) = true
      · exact Or.inl hl
      · right
        rw [Bool.not_eq_true] at hl
        simp only [hl] at h
        exact ih.mpr (by simp at h; omega)

theorem containsSubList_append_left {n : List Char} :
    ∀ (x y : List Char), containsSubList n x = true → containsSubList n (x ++ y) = true := by
  intro x
  induction x with
  | nil =>
    intro y h
    have hn : n = [] := by
      cases n with
      | nil => rfl
      | cons a t => simp [containsSubList, isLeadOf] at h
    subst hn
    cases y <;> simp [containsSubList, isLeadOf]
  | cons c x' ih =>
    intro y h
    simp only [containsSubList, Bool.or_eq_true] at h ⊢
    cases h with
    | inl h => exact Or.inl (isLeadOf_append_left y h)
    | inr h => exact Or.inr (ih y h)

theorem containsSubList_append_right {n : List Char} :
    ∀ (x y : List Char), containsSubList n y = true → containsSubList n (x ++ y) = true := by
  intro x
  induction x with
  | nil => intro y h; exact h
  | cons c x' ih =>
    intro y h
    simp only [containsSubList, Bool.or_eq_true]
    exact Or.inr (ih y h)

/-! ## Lemmas: splitting and indentation -/

theorem splitOnChar_ne_nil (sep : Char) : ∀ l : List Char, splitOnChar sep l ≠ [] := by
  intro l
  cases l with
  | nil => simp [splitOnChar]
  | cons c rest =>
    simp only [splitOnChar]
    split
    · simp
    · split <;> simp

theorem mem_of_mem_splitOnChar (sep : Char) :
    ∀ (l : List Char) (part : List Char) (c : Char),
      part ∈ splitOnChar sep l → c ∈ part → c ∈ l := by
  intro l
  induction l with
  | nil =>
    intro part c hp hc
    simp [splitOnChar] at hp
    subst hp
    simp at hc
  | cons c0 rest ih =>
    intro part c hp hc
    simp only [splitOnChar] at hp
    by_cases hsep : c0 = sep
    · rw [if_pos hsep] at hp
      cases hp with
      | head => simp at hc
      | tail _ hp => exact List.mem_cons_of_mem c0 (ih part c hp hc)
    · rw [if_neg hsep] at hp
      cases hS : splitOnChar sep rest with
      | nil => exact absurd hS (splitOnChar_ne_nil sep rest)
      | cons h t =>
        rw [hS] at hp
        cases hp with
        | head =>
          cases hc with
          | head => exact List.mem_cons_self _ _
          | tail _ hc =>
            exact List.mem_cons_of_mem c0 (ih h c (by rw [hS]; exact List.mem_cons_self h t) hc)
        | tail _ hp =>
          exact List.mem_cons_of_mem c0
            (ih part c (by rw [hS]; exact List.mem_cons_of_mem h hp) hc)

theorem indentInsert_append :
    ∀ x y : List Char, indentInsert (x ++ y) = indentInsert x ++ indentInsert y := by
  intro x y
  induction x with
  | nil => simp [indentInsert]
  | cons c t ih =>
    simp only [List.cons_append, indentInsert]
    split <;> simp [ih]

theorem indentInsert_of_no_nl : ∀ l : List Char, nlc ∉ l → indentInsert l = l := by
  intro l
  induction l with
  | nil => intro _; rfl
  | cons c t ih =>
    intro h
    have hc : ¬c = nlc := fun he => h (he ▸ List.mem_cons_self c t)
    simp only [indentInsert, if_neg hc]
    rw [ih (fun ht => h (List.mem_cons_of_mem c ht))]

/-- The `'\n'.join('    %s' % …)` recombination, character by character:
four spaces at the front and after every newline. -/
theorem joinIndent_data :
    ∀ l : List Char,
      (pyJoin nl (((splitOnChar nlc l).map String.mk).map (fun x => sp4 ++ x))).data =
        sp4.data ++ indentInsert l := by
  intro l
  induction l with
  | nil => rfl
  | cons c t ih =>
    by_cases hc : c = nlc
    · subst hc
      simp only [splitOnChar, if_pos rfl] at *
      cases hS : splitOnChar nlc t with
      | nil => exact absurd hS (splitOnChar_ne_nil nlc t)
      | cons p ps =>
        rw [hS] at ih
        simp only [List.map_cons, pyJoin] at ih ⊢
        simp only [String.data_append, ih, indentInsert, if_pos rfl]
        rfl
    · obtain ⟨p, ps, hS⟩ : ∃ p ps, splitOnChar nlc t = p :: ps := by
        cases hS : splitOnChar nlc t with
        | nil => exact absurd hS (splitOnChar_ne_nil nlc t)
        | cons p ps => exact ⟨p, ps, rfl⟩
      simp only [splitOnChar, if_neg hc, hS] at *
      cases ps with
        | nil =>
          simp only [List.map_cons, List.map_nil, pyJoin, String.data_append] at ih ⊢
          have ht := List.append_cancel_left ih
          simp only [indentInsert, if_neg hc]
          rw [← ht]
        | cons q qs =>
          simp only [List.map_cons, pyJoin, String.data_append, List.append_assoc,
            List.cons_append] at ih ⊢
          have ht := List.append_cancel_left ih
          simp only [indentInsert, if_neg hc]
          rw [← ht]

/-- `indentLines` seen on character lists. -/
theorem indentLines_data (s : String) :
    (indentLines s).data = sp4.data ++ indentInsert s.data := by
  have h := joinIndent_data s.data
  unfold indentLines pySplit
  exact h

/-! ## Lemmas: exception-propagating map -/

theorem mapExcept_ok_mem {α β : Type} (f : α → Except PyError β) :
    ∀ (l : List α) (bs : List β), mapExcept f l = Except.ok bs →
      ∀ a ∈ l, ∃ b, f a = Except.ok b := by
  intro l
  induction l with
  | nil => intro bs _ a ha; simp at ha
  | cons x rest ih =>
    intro bs hm a ha
    simp only [mapExcept] at hm
    cases hfx : f x with
    | error e => rw [hfx] at hm; simp at hm
    | ok b =>
      rw [hfx] at hm
      cases hrest : mapExcept f rest with
      | error e => rw [hrest] at hm; simp at hm
      | ok bs' =>
        rw [hrest] at hm
        cases ha with
        | head => exact ⟨b, hfx⟩
        | tail _ ha => exact ih bs' hrest a ha

theorem mapExcept_error_mem {α β : Type} (f : α → Except PyError β) :
    ∀ (l : List α) (e : PyError), mapExcept f l = Except.error e →
      ∃ a ∈ l, f a = Except.error e := by
  intro l
  induction l with
  | nil => intro e hm; simp [mapExcept] at hm
  | cons x rest ih =>
    intro e hm
    simp only [mapExcept] at hm
    cases hfx : f x with
    | error e' =>
      rw [hfx] at hm
      simp at hm
      exact ⟨x, List.mem_cons_self x rest, by rw [hfx, hm]⟩
    | ok b =>
      rw [hfx] at hm
      cases hrest : mapExcept f rest with
      | error e' =>
        rw [hrest] at hm
        simp at hm
        obtain ⟨a, ha, hfa⟩ := ih e' hrest
        exact ⟨a, List.mem_cons_of_mem x ha, by rw [hfa, hm]⟩
      | ok bs' => rw [hrest] at hm; simp at hm

/-- When some element fails, the whole map fails. -/
theorem mapExcept_error_of_mem {α β : Type} (f : α → Except PyError β)
    (l : List α) (a : α) (e : PyError) (ha : a ∈ l) (hfa : f a = Except.error e) :
    ∃ e', mapExcept f l = Except.error e' := by
  cases hm : mapExcept f l with
  | error e' => exact ⟨e', rfl⟩
  | ok bs =>
    obtain ⟨b, hb⟩ := mapExcept_ok_mem f l bs hm a ha
    rw [hfa] at hb
    simp at hb

/-! ## Lemmas: the dependency-closure resolver -/

theorem mem_setAdd {s : List String} {x y : String} (h : x ∈ setAdd s y) :
    x ∈ s ∨ x = y := by
  unfold setAdd at h
  split at h
  · exact Or.inl h
  · rcases List.mem_append.mp h with h' | h'
    · exact Or.inl h'
    · simp at h'
      exact Or.inr h'

theorem mem_setUnion {x : String} :
    ∀ (t s : List String), x ∈ setUnion s t → x ∈ s ∨ x ∈ t := by
  intro t
  induction t with
  | nil => intro s h; exact Or.inl h
  | cons y t' ih =>
    intro s h
    unfold setUnion at h ih
    rcases ih (setAdd s y) h with h' | h'
    · rcases mem_setAdd h' with h'' | h''
      · exact Or.inl h''
      · exact Or.inr (h'' ▸ List.mem_cons_self y t')
    · exact Or.inr (List.mem_cons_of_mem y h')

/-- Membership through a `foldl` that only ever inserts things satisfying a
per-element property. -/
theorem foldl_mem_inv {β : Type} (f : List String → β → List String)
    (P : β → String → Prop)
    (hf : ∀ acc b x, x ∈ f acc b → x ∈ acc ∨ P b x) :
    ∀ (l : List β) (acc : List String) (x : String),
      x ∈ l.foldl f acc → x ∈ acc ∨ ∃ b ∈ l, P b x := by
  intro l
  induction l with
  | nil => intro acc x h; exact Or.inl h
  | cons b l' ih =>
    intro acc x h
    rw [List.foldl_cons] at h
    rcases ih (f acc b) x h with h' | ⟨b', hb', hP⟩
    · rcases hf acc b x h' with h'' | h''
      · exact Or.inl h''
      · exact Or.inr ⟨b, List.mem_cons_self b l', h''⟩
    · exact Or.inr ⟨b', List.mem_cons_of_mem b hb', hP⟩

/-- Everything the closure resolver accumulates is either an ordinary
direct dependency (and then the JDK filter did apply to it) or a label read
off some target's `exports` (the JDK filter is NOT applied to those). -/
theorem pomDeps_mem_structure (g : Graph) :
    ∀ (fuel : Nat) (label x : String), x ∈ pomDeps g fuel label →
      strStarts x jdkLabel = false ∨ ∃ d, x ∈ g.exportsFor d := by
  intro fuel
  induction fuel with
  | zero => intro label x h; simp [pomDeps] at h
  | succ n ih =>
    intro label x h
    simp only [pomDeps] at h
    have := foldl_mem_inv _
      (fun dep x =>
        (strStarts dep jdkLabel = false ∧
          (strStarts dep rootLabel || strStarts dep thirdPartyLabel) = false ∧ x = dep) ∨
        ∃ e ∈ g.exportsFor dep, x = e ∨ x ∈ pomDeps g n e)
      ?_ (g.depsOf label) [] x h
    · rcases this with h' | ⟨dep, _, hP⟩
      · simp at h'
      · rcases hP with ⟨hjdk, _, rfl⟩ | ⟨e, he, rfl | hrec⟩
        · exact Or.inl hjdk
        · exact Or.inr ⟨dep, he⟩
        · exact ih e x hrec
    · intro acc dep x hx
      by_cases h1 : strStarts dep jdkLabel = true
      · rw [if_pos h1] at hx
        exact Or.inl hx
      · rw [Bool.not_eq_true] at h1
        rw [if_neg (by rw [h1]; simp)] at hx
        by_cases h2 : (strStarts dep rootLabel || strStarts dep thirdPartyLabel) = true
        · rw [if_pos h2] at hx
          have := foldl_mem_inv _
            (fun e x => x = e ∨ x ∈ pomDeps g n e) ?_ (g.exportsFor dep) acc x hx
          · rcases this with h' | ⟨e, he, hP⟩
            · exact Or.inl h'
            · exact Or.inr (Or.inr ⟨e, he, hP⟩)
          · intro acc2 e x2 hx2
            rcases mem_setUnion _ _ hx2 with h' | h'
            · rcases mem_setAdd h' with h'' | h''
              · exact Or.inl h''
              · exact Or.inr (Or.inl h'')
            · exact Or.inr (Or.inr h')
        · rw [Bool.not_eq_true] at h2
          rw [if_neg (by rw [h2]; simp)] at hx
          rcases mem_setAdd hx with h' | h'
          · exact Or.inl h'
          · exact Or.inr (Or.inl ⟨h1, h2, h'⟩)

/-! ## Lemmas: the workspace parser -/

/-- When no keyword is named `artifact`, the `artifact` local keeps its
initial value through the whole keyword loop. -/
theorem collectNameArtifact_no_artifact :
    ∀ (kws : List PyKeyword) (nm art : Option String) (p : Option String × Option String),
      (∀ kw ∈ kws, kw.arg ≠ some artifactKw) →
      collectNameArtifact kws nm art = Except.ok p → p.2 = art := by
  intro kws
  induction kws with
  | nil =>
    intro nm art p _ h
    simp only [collectNameArtifact] at h
    cases h
    rfl
  | cons kw rest ih =>
    intro nm art p hno h
    simp only [collectNameArtifact] at h
    split at h
    · cases hv : kwString kw.value with
      | error e => rw [hv] at h; cases h
      | ok s =>
        rw [hv] at h
        exact ih (some s) art p (fun k hk => hno k (List.mem_cons_of_mem kw hk)) h
    · split at h
      · exact absurd (by assumption) (hno kw (List.mem_cons_self kw rest))
      · exact ih nm art p (fun k hk => hno k (List.mem_cons_of_mem kw hk)) h

/-- With literal `name`/`artifact` values the keyword loop cannot raise. -/
theorem collectNameArtifact_ok_of_literal :
    ∀ (kws : List PyKeyword) (nm art : Option String),
      (∀ kw ∈ kws, (kw.arg = some nameKw ∨ kw.arg = some artifactKw) →
        ∃ s, kw.value = PyExpr.strLit s) →
      ∃ p, collectNameArtifact kws nm art = Except.ok p := by
  intro kws
  induction kws with
  | nil => intro nm art _; exact ⟨(nm, art), rfl⟩
  | cons kw rest ih =>
    intro nm art hlit
    have hrest : ∀ kw' ∈ rest, (kw'.arg = some nameKw ∨ kw'.arg = some artifactKw) →
        ∃ s, kw'.value = PyExpr.strLit s :=
      fun k hk => hlit k (List.mem_cons_of_mem kw hk)
    simp only [collectNameArtifact]
    split
    · obtain ⟨s, hs⟩ := hlit kw (List.mem_cons_self kw rest) (Or.inl (by assumption))
      rw [hs]
      simp only [kwString]
      exact ih (some s) art hrest
    · split
      · obtain ⟨s, hs⟩ := hlit kw (List.mem_cons_self kw rest) (Or.inr (by assumption))
        rw [hs]
        simp only [kwString]
        exact ih nm (some s) hrest
      · exact ih nm art hrest

/-- On well-formed inputs the whole workspace traversal cannot raise. -/
theorem wsScanCalls_ok_of_safe :
    ∀ (calls : List PyCall) (acc : List (String × Option String)),
      wsSafeB calls = true → ∃ m, wsScanCalls calls acc = Except.ok m := by
  intro calls
  induction calls with
  | nil => intro acc _; exact ⟨acc, rfl⟩
  | cons c rest ih =>
    intro acc hsafe
    simp only [wsSafeB, List.all_cons, Bool.and_eq_true] at hsafe
    obtain ⟨⟨hfunc, hlit⟩, hrest⟩ := hsafe
    cases hf : c.func with
    | attr => rw [hf] at hfunc; simp at hfunc
    | name id =>
      simp only [wsScanCalls, visitCallWs, hf]
      by_cases hid : id = mavenJarStr
      · rw [if_pos hid]
        have hlit' : ∀ kw ∈ c.keywords,
            (kw.arg = some nameKw ∨ kw.arg = some artifactKw) →
            ∃ s, kw.value = PyExpr.strLit s := by
          intro kw hk harg
          simp only [wsLiteralB, List.all_eq_true] at hlit
          have := hlit kw hk
          rw [if_pos harg] at this
          cases hv : kw.value with
          | strLit s => exact ⟨s, rfl⟩
          | nonLiteral => rw [hv] at this; simp at this
        obtain ⟨p, hp⟩ := collectNameArtifact_ok_of_literal c.keywords none none hlit'
        rw [hp]
        exact ih _ (by simpa [wsSafeB] using hrest)
      · rw [if_neg hid]
        exact ih acc (by simpa [wsSafeB] using hrest)

/-! ## Lemmas: the sha1 checker -/

theorem foldl_pickLast :
    ∀ (l : List String) (nm : Option String),
      l.foldl (fun _ s => some s) nm =
        (match l.getLast? with
         | some v => some v
         | none => nm) := by
  intro l
  induction l with
  | nil => intro nm; rfl
  | cons x rest ih =>
    intro nm
    rw [List.foldl_cons, ih (some x)]
    cases hr : rest.getLast? with
    | some v =>
      have : (x :: rest).getLast? = some v := by
        cases rest with
        | nil => simp at hr
        | cons y t => rw [List.getLast?_cons_cons]; exact hr
      rw [this]
    | none =>
      have hre : rest = [] := by
        cases rest with
        | nil => rfl
        | cons y t =>
          exfalso
          obtain ⟨a, ha⟩ : ∃ a, (y :: t).getLast? = some a := by
            cases t with
            | nil => exact ⟨y, rfl⟩
            | cons z t' => exact ⟨(z :: t').getLast (by simp), by
                rw [List.getLast?_cons_cons]
                exact List.getLast?_eq_getLast _ _⟩
          rw [ha] at hr
          cases hr
      subst hre
      rfl

/-- The keyword scan returns early exactly on the first `sha1` keyword. -/
theorem shaScanKeywords_of_sha1 :
    ∀ (kws : List PyKeyword) (nm : Option String),
      (∀ kw ∈ kws, kw.arg = some nameKw → ∃ s, kw.value = PyExpr.strLit s) →
      (∃ kw ∈ kws, kw.arg = some sha1Kw) →
      shaScanKeywords kws nm = Except.ok none := by
  intro kws
  induction kws with
  | nil => intro nm _ h; simp at h
  | cons kw rest ih =>
    intro nm hlit hex
    simp only [shaScanKeywords]
    by_cases hs : kw.arg = some sha1Kw
    · rw [if_pos hs]
    · rw [if_neg hs]
      have hex' : ∃ kw' ∈ rest, kw'.arg = some sha1Kw := by
        rcases hex with ⟨kw', hk', hs'⟩
        cases hk' with
        | head => exact absurd hs' hs
        | tail _ hk' => exact ⟨kw', hk', hs'⟩
      have hlit' : ∀ kw' ∈ rest, kw'.arg = some nameKw → ∃ s, kw'.value = PyExpr.strLit s :=
        fun k hk => hlit k (List.mem_cons_of_mem kw hk)
      split
      · obtain ⟨s, hsv⟩ := hlit kw (List.mem_cons_self kw rest) (by assumption)
        rw [hsv]
        simp only [kwString]
        exact ih (some s) hlit' hex'
      · exact ih nm hlit' hex'

/-- Without any `sha1` keyword the scan reaches the end and reports the last
literal `name` value (starting from the accumulator). -/
theorem shaScanKeywords_of_no_sha1 :
    ∀ (kws : List PyKeyword) (nm : Option String),
      (∀ kw ∈ kws, kw.arg = some nameKw → ∃ s, kw.value = PyExpr.strLit s) →
      (∀ kw ∈ kws, kw.arg ≠ some sha1Kw) →
      shaScanKeywords kws nm =
        Except.ok (some ((namesOf kws).foldl (fun _ s => some s) nm)) := by
  intro kws
  induction kws with
  | nil => intro nm _ _; rfl
  | cons kw rest ih =>
    intro nm hlit hno
    have hlit' : ∀ kw' ∈ rest, kw'.arg = some nameKw → ∃ s, kw'.value = PyExpr.strLit s :=
      fun k hk => hlit k (List.mem_cons_of_mem kw hk)
    have hno' : ∀ kw' ∈ rest, kw'.arg ≠ some sha1Kw :=
      fun k hk => hno k (List.mem_cons_of_mem kw hk)
    simp only [shaScanKeywords, namesOf, List.filterMap_cons]
    rw [if_neg (hno kw (List.mem_cons_self kw rest))]
    by_cases hn : kw.arg = some nameKw
    · obtain ⟨s, hsv⟩ := hlit kw (List.mem_cons_self kw rest) hn
      rw [if_pos hn, hsv]
      simp only [kwString]
      rw [ih (some s) hlit' hno']
      simp [hn, namesOf]
    · rw [if_neg hn]
      rw [ih nm hlit' hno']
      simp [hn, namesOf]

/-- One visitor step, on a call satisfying the safety conditions. -/
theorem shaVisitCall_char (missing : List (Option String)) (c : PyCall)
    (hfunc : ∃ id, c.func = PyFunc.name id)
    (hlit : isMavenJarB c = true →
      ∀ kw ∈ c.keywords, kw.arg = some nameKw → ∃ s, kw.value = PyExpr.strLit s) :
    shaVisitCall missing c =
      Except.ok (if isMavenJarB c && !hasSha1B c
        then missing ++ [declaredName c] else missing) := by
  obtain ⟨id, hf⟩ := hfunc
  simp only [shaVisitCall, hf]
  by_cases hid : id = mavenJarStr
  · have hmj : isMavenJarB c = true := by
      simp [isMavenJarB, hf, hid]
    rw [if_pos hid]
    by_cases hs : hasSha1B c = true
    · have hex : ∃ kw ∈ c.keywords, kw.arg = some sha1Kw := by
        simp only [hasSha1B, List.any_eq_true] at hs
        rcases hs with ⟨kw, hk, hka⟩
        exact ⟨kw, hk, by simpa using hka⟩
      rw [shaScanKeywords_of_sha1 c.keywords none (hlit hmj) hex]
      simp [hmj, hs]
    · have hno : ∀ kw ∈ c.keywords, kw.arg ≠ some sha1Kw := by
        intro kw hk hka
        exact hs (by simp only [hasSha1B, List.any_eq_true]; exact ⟨kw, hk, by simpa using hka⟩)
      rw [shaScanKeywords_of_no_sha1 c.keywords none (hlit hmj) hno]
      rw [Bool.not_eq_true] at hs
      simp only [hmj, hs, Bool.not_false, Bool.and_true, if_pos rfl]
      rw [foldl_pickLast]
      have : (namesOf c.keywords).foldl (fun _ s => some s) none = declaredName c := by
        rw [foldl_pickLast, declaredName]
        cases (namesOf c.keywords).getLast? <;> rfl
      rw [foldl_pickLast] at this
      rw [this]
      simp
  · have hmj : isMavenJarB c = false := by
      simp [isMavenJarB, hf, hid]
    rw [if_neg hid, hmj]
    simp

/-- The whole visitor walk, on safe inputs, appends exactly one entry per
checksum-less `maven_jar` declaration. -/
theorem shaScanCalls_char :
    ∀ (calls : List PyCall) (acc : List (Option String)),
      safeCallsB calls = true →
      shaScanCalls calls acc = Except.ok (acc ++ missingEntries calls) := by
  intro calls
  induction calls with
  | nil => intro acc _; simp [shaScanCalls, missingEntries]
  | cons c rest ih =>
    intro acc hsafe
    simp only [safeCallsB, List.all_cons, Bool.and_eq_true] at hsafe
    obtain ⟨⟨hfunc, hcall⟩, hrest⟩ := hsafe
    have hfunc' : ∃ id, c.func = PyFunc.name id := by
      cases hf : c.func with
      | name id => exact ⟨id, rfl⟩
      | attr => rw [hf] at hfunc; simp at hfunc
    have hlit : isMavenJarB c = true →
        ∀ kw ∈ c.keywords, kw.arg = some nameKw → ∃ s, kw.value = PyExpr.strLit s := by
      intro hmj kw hk hka
      rw [if_pos hmj] at hcall
      simp only [Bool.and_eq_true] at hcall
      have := hcall.1
      simp only [namesLiteralB, List.all_eq_true] at this
      have := this kw hk
      rw [if_pos hka] at this
      cases hv : kw.value with
      | strLit s => exact ⟨s, rfl⟩
      | nonLiteral => rw [hv] at this; simp at this
    simp only [shaScanCalls]
    rw [shaVisitCall_char acc c hfunc' hlit]
    show shaScanCalls rest (if (isMavenJarB c && !hasSha1B c) = true
        then acc ++ [declaredName c] else acc) = Except.ok (acc ++ missingEntries (c :: rest))
    rw [ih _ (by simpa [safeCallsB] using hrest)]
    simp only [missingEntries, List.filterMap_cons]
    by_cases hcond : (isMavenJarB c && !hasSha1B c) = true
    · rw [if_pos hcond, if_pos hcond]
      try simp [missingEntries]
    · rw [if_neg hcond, if_neg hcond]
      try simp [missingEntries]

/-- Under safety every reported entry carries a name. -/
theorem missingEntries_eq_map_some :
    ∀ calls : List PyCall, safeCallsB calls = true →
      missingEntries calls = (missingNames calls).map some := by
  intro calls
  induction calls with
  | nil => intro _; rfl
  | cons c rest ih =>
    intro hsafe
    simp only [safeCallsB, List.all_cons, Bool.and_eq_true] at hsafe
    obtain ⟨⟨_, hcall⟩, hrest⟩ := hsafe
    simp only [missingEntries, missingNames, List.filterMap_cons]
    by_cases hcond : (isMavenJarB c && !hasSha1B c) = true
    · rw [if_pos hcond, if_pos hcond]
      simp only [Bool.and_eq_true] at hcond
      have hmj : isMavenJarB c = true := hcond.1
      have hns : hasSha1B c = false := by simpa using hcond.2
      rw [if_pos hmj] at hcall
      simp only [Bool.and_eq_true] at hcall
      have hsome : (declaredName c).isSome = true := by
        have h2 := hcall.2
        rw [hns] at h2
        simpa using h2
      obtain ⟨v, hv⟩ := Option.isSome_iff_exists.mp hsome
      rw [hv]
      have hih := ih (by simpa [safeCallsB] using hrest)
      simp only [missingEntries, missingNames] at hih
      simp at hih ⊢
      exact hih
    · rw [if_neg hcond, if_neg hcond]
      exact ih (by simpa [safeCallsB] using hrest)

theorem optJoinable_map_some :
    ∀ l : List String, optJoinable (l.map some) = some l := by
  intro l
  induction l with
  | nil => rfl
  | cons x rest ih => simp [optJoinable, ih]

/-! ## Lemmas: decidable-friendly variants of the counting lemmas -/

/-- Boolean form of the boundary condition of
`countSubList_append_lastChar`. -/
def lastCharOk (n x : List Char) : Bool :=
  match x.getLast? with
  | some ch => !(decide (ch ∈ n.dropLast))
  | none => true

theorem countSubList_append_ok (n : List Char) (hn : n ≠ []) (x y : List Char)
    (h : lastCharOk n x = true) :
    countSubList n (x ++ y) = countSubList n x + countSubList n y := by
  apply countSubList_append_lastChar hn
  intro ch hch hmem
  rw [lastCharOk, hch] at h
  have h3 : (!(decide (ch ∈ n.dropLast))) = true := h
  rw [decide_eq_true hmem] at h3
  simp at h3

theorem countSubList_append_heads (n : List Char) (x y : List Char) (hc : Char)
    (hh : n.head? = some hc) (hmem : hc ∉ x) :
    countSubList n (x ++ y) = countSubList n x + countSubList n y := by
  cases n with
  | nil => cases hh
  | cons a n' =>
    have ha : a = hc := by
      simp only [List.head?_cons, Option.some.injEq] at hh
      exact hh
    subst ha
    exact countSubList_append_headNotMem x y hmem

theorem countSubList_zero_heads (n : List Char) (l : List Char) (hc : Char)
    (hh : n.head? = some hc) (hmem : hc ∉ l) : countSubList n l = 0 := by
  cases n with
  | nil => cases hh
  | cons a n' =>
    have ha : a = hc := by
      simp only [List.head?_cons, Option.some.injEq] at hh
      exact hh
    subst ha
    exact countSubList_zero_headNotMem l hmem

/-- A string whose fields pass the `cleanStr` filter has `'<'`-free and
newline-free colon fields. -/
theorem pySplit_field_chars (s fld : String) (hf : fld ∈ pySplit colonc s)
    (c : Char) (hc : c ∈ fld.data) : c ∈ s.data := by
  simp only [pySplit, List.mem_map] at hf
  obtain ⟨part, hp, hmk⟩ := hf
  have hdata : fld.data = part := by rw [← hmk]
  rw [hdata] at hc
  exact mem_of_mem_splitOnChar colonc s.data part c hp hc

theorem containsSub_false_of_count (needle hay : String)
    (h : countSub needle hay = 0) : containsSub needle hay = false := by
  rw [containsSub]
  cases hb : containsSubList needle.data hay.data with
  | false => rfl
  | true => exact absurd h ((containsSubList_iff_count hay.data).mp hb)

theorem containsSub_true_of_count (needle hay : String)
    (h : countSub needle hay ≠ 0) : containsSub needle hay = true :=
  (containsSubList_iff_count hay.data).mpr h

theorem list_eq_three {α : Type} (l : List α) (h : l.length = 3) :
    ∃ a b c, l = [a, b, c] := by
  cases l with
  | nil => simp at h
  | cons a l1 =>
    cases l1 with
    | nil => simp at h
    | cons b l2 =>
      cases l2 with
      | nil => simp at h
      | cons c l3 =>
        cases l3 with
        | nil => exact ⟨a, b, c, rfl⟩
        | cons d l4 => simp at h

theorem list_eq_five {α : Type} (l : List α) (h : l.length = 5) :
    ∃ a b c d e, l = [a, b, c, d, e] := by
  cases l with
  | nil => simp at h
  | cons a l1 =>
    cases l1 with
    | nil => simp at h
    | cons b l2 =>
      cases l2 with
      | nil => simp at h
      | cons c l3 =>
        cases l3 with
        | nil => simp at h
        | cons d l4 =>
          cases l4 with
          | nil => simp at h
          | cons e l5 =>
            cases l5 with
            | nil => exact ⟨a, b, c, d, e, rfl⟩
            | cons f l6 => simp at h

/-! ## The claims -/

/-- C8: for every label that is a key of the combined artifacts mapping,
`artifact_for_dep` returns the mapping's value for that label — even when
the label also matches the android SDK pattern — and the SDK pattern is
consulted only for labels absent from the mapping. -/
theorem claim8_direct_mapping_preferred :
    (∀ (artifacts : List (String × Option String)) (label : String) (v : Option String),
      lookupKV artifacts label = some v → artifactForDep artifacts label = Except.ok v) ∧
    (∀ (artifacts : List (String × Option String)) (label coord : String),
      lookupKV artifacts label = none → androidSdkMatch label = some coord →
      artifactForDep artifacts label = Except.ok (some coord)) := by
  constructor
  · intro arts label v h
    simp [artifactForDep, h]
  · intro arts label coord h hm
    simp [artifactForDep, h, hm]

/-- Witness for C8 at a label that is both mapped and SDK-shaped: the
mapping's value wins over what the pattern would produce. -/
theorem claim8_witness :
    androidSdkMatch lblOverlap = some sdkResolved ∧
    artifactForDep artsOverlap lblOverlap = Except.ok (some overlapCoord) :=
  ⟨by decide,
   claim8_direct_mapping_preferred.1 artsOverlap lblOverlap (some overlapCoord) (by decide)⟩

/-- C10: the descriptor produced by `generate_pom` does not depend on its
`version` argument (the tuple unpacking rebinds it from the coordinate's
third field); concretely, a call with coordinate version `7.7` and argument
`9.9` renders `<version>7.7</version>` and never mentions `9.9`. -/
theorem claim10_version_arg_ignored :
    (∀ (a : String) (m : Metadata) (d : List String) (v1 v2 : String),
      generatePom a m d v1 = generatePom a m d v2) ∧
    generatePom c10coord mdN [] ver99 = Except.ok c10out ∧
    containsSub version77Tag c10out = true ∧
    containsSub ver99 c10out = false := by
  refine ⟨fun a m d v1 v2 => rfl, rfl, by decide, by decide⟩

/-- C7 counterexample: an exported label carrying the `@local_jdk//:`
prefix IS accumulated by `pom_deps` (the filter only guards direct
dependencies), contradicting the claim that the accumulated set never
contains such a label. -/
theorem claim7_cex :
    jniLbl ∈ pomDeps gJdkExport 2 xLabel ∧ strStarts jniLbl jdkLabel = true := by
  decide

/-- C7 amended: every accumulated label either does not carry the internal
JDK prefix (the direct-dependency case, where the filter applies) or was
reached as some target's export (where the filter is not applied). -/
theorem claim7_amended (g : Graph) (fuel : Nat) (label x : String)
    (h : x ∈ pomDeps g fuel label) :
    strStarts x jdkLabel = false ∨ ∃ d, x ∈ g.exportsFor d :=
  pomDeps_mem_structure g fuel label x h

/-- Witness for C7 amended on a one-edge graph. -/
theorem claim7_witness :
    strStarts guavaKey jdkLabel = false ∨ ∃ d, guavaKey ∈ gPlain.exportsFor d :=
  claim7_amended gPlain 1 tLabel guavaKey (by decide)

/-- C5 counterexample: a file the syntax parser accepts (a call whose
function is an attribute access, e.g. `foo.bar()`) makes the workspace
traversal itself raise `AttributeError` on `rule.func.id` — an error of the
visitor, not of the parser. -/
theorem claim5_cex :
    mavenArtifacts [callAttr] = Except.error PyError.attributeError := rfl

/-- C5 amended: the traversal raises no error of its own only on files
whose calls all have plain-name functions and literal-string
`name`/`artifact` values; on such files `maven_artifacts` returns a
mapping. -/
theorem claim5_amended (calls : List PyCall) (h : wsSafeB calls = true) :
    ∃ m, mavenArtifacts calls = Except.ok m :=
  wsScanCalls_ok_of_safe calls [] h

/-- Witness for C5 amended on a well-formed one-declaration file. -/
theorem claim5_witness : ∃ m, mavenArtifacts [callFull] = Except.ok m :=
  claim5_amended [callFull] (by decide)

/-- C2 counterexample: `maven_jar(name = 'guava')` with no `artifact`
keyword produces a mapping that CONTAINS the synthesized label (bound to
`None`), not one that omits it. -/
theorem claim2_cex :
    mavenArtifacts [callNameOnly] = Except.ok [(guavaKey, none)] ∧
    lookupKV [(guavaKey, (none : Option String))] guavaKey = some none := by
  constructor
  · rfl
  · decide

/-- C2 amended: a `maven_jar` call with no `artifact` keyword contributes
an entry binding the synthesized label to `None` (the assignment is
unconditional), so the label is present in the mapping with an absent
coordinate rather than omitted. -/
theorem claim2_amended (acc m : List (String × Option String)) (c : PyCall)
    (hf : c.func = PyFunc.name mavenJarStr)
    (_hname : ∃ kw ∈ c.keywords, kw.arg = some nameKw)
    (hnoart : ∀ kw ∈ c.keywords, kw.arg ≠ some artifactKw)
    (hok : visitCallWs acc c = Except.ok m) :
    ∃ nm, m = insertKV acc (mkJarLabel nm) none ∧
      lookupKV m (mkJarLabel nm) = some none := by
  simp only [visitCallWs, hf, if_true] at hok
  cases hca : collectNameArtifact c.keywords none none with
  | error e => rw [hca] at hok; cases hok
  | ok p =>
    rw [hca] at hok
    obtain ⟨nm, art⟩ := p
    have hart : art = none :=
      collectNameArtifact_no_artifact c.keywords none none (nm, art) hnoart hca
    subst hart
    cases hok
    exact ⟨nm, rfl, by simp [lookupKV, insertKV]⟩

/-- Witness for C2 amended at `maven_jar(name = 'guava')`. -/
theorem claim2_witness :
    ∃ nm, [(guavaKey, (none : Option String))] = insertKV [] (mkJarLabel nm) none ∧
      lookupKV [(guavaKey, (none : Option String))] (mkJarLabel nm) = some none :=
  claim2_amended [] [(guavaKey, none)] callNameOnly rfl (by decide) (by decide) rfl

/-- C4 counterexample: two distinct non-dagger coordinates on which the
comparator disagrees with lexicographic order on the FULL coordinate
string: `a-b:x < a:b` as strings (`'-' < ':'`), yet the comparator orders
`a:b` first (it compares the lists of colon-separated fields, and
`"a" < "a-b"`). -/
theorem claim4_cex :
    dependenciesComparator cmpA cmpB = 1 ∧ pyStrLt cmpA cmpB = true ∧ ¬cmpA = cmpB ∧
    ¬(pySplit colonc cmpA).headD emptyStr = GROUP ∧
    ¬(pySplit colonc cmpB).headD emptyStr = GROUP := by
  refine ⟨by decide, by decide, by decide, by decide, by decide⟩

/-- C4 amended: the comparator orders coordinates with group
`com.google.dagger` before all others, and orders coordinates that agree
on that criterion by Python list comparison of their colon-separated field
lists (lexicographic over fields) — not by the full coordinate string. -/
theorem claim4_amended (a b : String) (hne : ¬a = b) :
    (((pySplit colonc a).headD emptyStr = GROUP ∧
        ¬(pySplit colonc b).headD emptyStr = GROUP) →
      dependenciesComparator a b = -1) ∧
    (((pySplit colonc b).headD emptyStr = GROUP ∧
        ¬(pySplit colonc a).headD emptyStr = GROUP) →
      dependenciesComparator a b = 1) ∧
    ((((pySplit colonc a).headD emptyStr = GROUP) ↔
        ((pySplit colonc b).headD emptyStr = GROUP)) →
      dependenciesComparator a b =
        if pyListLt (pySplit colonc a) (pySplit colonc b) then -1 else 1) := by
  refine ⟨?_, ?_, ?_⟩ <;> intro h <;>
    simp only [dependenciesComparator, if_neg hne]
  · rw [if_pos h]
  · rw [if_neg (fun hc => hc.2 h.1), if_pos h]
  · rw [if_neg (fun hc => hc.2 (h.mp hc.1)), if_neg (fun hc => hc.2 (h.mpr hc.1))]

/-- Witness for C4 amended: a dagger-group coordinate sorts before a
non-dagger one. -/
theorem claim4_witness : dependenciesComparator c4wa c4wb = -1 :=
  (claim4_amended c4wa c4wb (by decide)).1 ⟨by decide, by decide⟩

/-- C1 counterexample: a target whose only dependency is declared nowhere.
Resolution raises the unknown-dependency exception, but the output file
`dagger.pom.xml` IS created (opened in `'w'` mode before resolution) — the
claim that no `<artifact>.pom.xml` is created for the target is false. -/
theorem claim1_cex :
    unknownLbl ∈ pomDeps gUnknownDep 1 coreLabel ∧
    lookupKV (combinedArtifacts [] ver10) unknownLbl = none ∧
    androidSdkMatch unknownLbl = none ∧
    processTarget gUnknownDep 1 [] ver10 coreLabel =
      ⟨[daggerPomFile], Except.error (PyError.unknownDependency (noArtifactMsg unknownLbl))⟩ := by
  refine ⟨by decide, by decide, by decide, by decide⟩

/-- `artifact_for_dep` fails only with the unknown-dependency exception. -/
theorem artifactForDep_error_shape (arts : List (String × Option String))
    (a : String) (e : PyError) (h : artifactForDep arts a = Except.error e) :
    ∃ msg, e = PyError.unknownDependency msg := by
  simp only [artifactForDep] at h
  cases hk : lookupKV arts a with
  | some v => rw [hk] at h; cases h
  | none =>
    rw [hk] at h
    cases hm : androidSdkMatch a with
    | some coord => rw [hm] at h; cases h
    | none =>
      rw [hm] at h
      cases h
      exact ⟨noArtifactMsg a, rfl⟩

/-- C1 amended: when the dependency closure of a target contains a label
that is neither in the combined mapping nor SDK-shaped, processing the
target raises the unknown-dependency exception — but the file
`<artifact>.pom.xml` has already been created (empty) by the `open(…, 'w')`
that precedes resolution; only the content is never written. -/
theorem claim1_amended (g : Graph) (fuel : Nat)
    (ws : List (String × Option String)) (version arg : String) (md : Metadata)
    (hmd : lookupKV METADATA arg = some md)
    (hbad : ∃ l, l ∈ pomDeps g fuel arg ∧
      lookupKV (combinedArtifacts ws version) l = none ∧ androidSdkMatch l = none) :
    ∃ msg, processTarget g fuel ws version arg =
      ⟨[md.artifact ++ pomSuffix], Except.error (PyError.unknownDependency msg)⟩ := by
  obtain ⟨l, hl, hlk, ham⟩ := hbad
  have hfl : artifactForDep (combinedArtifacts ws version) l =
      Except.error (PyError.unknownDependency (noArtifactMsg l)) := by
    simp [artifactForDep, hlk, ham]
  obtain ⟨e', he'⟩ :=
    mapExcept_error_of_mem (artifactForDep (combinedArtifacts ws version))
      (pomDeps g fuel arg) l _ hl hfl
  obtain ⟨a, _, hfa⟩ :=
    mapExcept_error_mem (artifactForDep (combinedArtifacts ws version))
      (pomDeps g fuel arg) e' he'
  obtain ⟨msg, rfl⟩ := artifactForDep_error_shape _ a e' hfa
  refine ⟨msg, ?_⟩
  simp only [processTarget, hmd, he']

/-- Witness for C1 amended on the concrete unknown-dependency graph. -/
theorem claim1_witness :
    ∃ msg, processTarget gUnknownDep 1 [] ver10 coreLabel =
      ⟨[mdCore.artifact ++ pomSuffix], Except.error (PyError.unknownDependency msg)⟩ :=
  claim1_amended gUnknownDep 1 [] ver10 coreLabel mdCore (by decide)
    ⟨unknownLbl, by decide, by decide, by decide⟩

/-- Under safety, no name is missing exactly when every `maven_jar` call
has a checksum. -/
theorem missingNames_nil_iff (calls : List PyCall) (hsafe : safeCallsB calls = true) :
    missingNames calls = [] ↔
      ∀ c ∈ calls, isMavenJarB c = true → hasSha1B c = true := by
  rw [missingNames, List.filterMap_eq_nil]
  constructor
  · intro h c hc hmj
    have := h c hc
    by_cases hs : hasSha1B c = true
    · exact hs
    · exfalso
      rw [Bool.not_eq_true] at hs
      rw [if_pos (by rw [hmj, hs]; rfl)] at this
      simp only [safeCallsB, List.all_eq_true] at hsafe
      have hsc := hsafe c hc
      simp only [Bool.and_eq_true] at hsc
      rw [if_pos hmj] at hsc
      simp only [Bool.and_eq_true] at hsc
      have h2 := hsc.2.2
      rw [hs] at h2
      simp only [Bool.false_or] at h2
      rw [Option.isSome_iff_exists] at h2
      obtain ⟨v, hv⟩ := h2
      rw [hv] at this
      cases this
  · intro h c hc
    by_cases hcond : (isMavenJarB c && !hasSha1B c) = true
    · exfalso
      simp only [Bool.and_eq_true] at hcond
      have := h c hc hcond.1
      rw [this] at hcond
      simp at hcond
    · rw [if_neg hcond]

/-- C6 counterexample: `maven_jar(artifact = 'a:b:c')` lacks `sha1`, so the
claim demands a failure whose message names the offending declarations;
instead the checker raises an uncaught `TypeError` (joining a `None` name)
and reports no message. -/
theorem claim6_cex :
    sha1TestOutcome [callNoSha1NoName] = Except.error PyError.typeError ∧
    isMavenJarB callNoSha1NoName = true ∧
    hasSha1B callNoSha1NoName = false := by
  refine ⟨rfl, by decide, by decide⟩

/-- C6 amended: on files whose calls have plain-name functions and whose
`maven_jar` declarations have literal-string names — with a `name` present
whenever `sha1` is missing — the checker passes exactly when every
`maven_jar` declaration carries `sha1`, and otherwise fails with the single
message listing exactly the names of the declarations lacking `sha1`, in
order. -/
theorem claim6_amended (calls : List PyCall) (hsafe : safeCallsB calls = true) :
    (sha1TestOutcome calls = Except.ok TestResult.pass ↔
      ∀ c ∈ calls, isMavenJarB c = true → hasSha1B c = true) ∧
    (missingNames calls ≠ [] →
      sha1TestOutcome calls =
        Except.ok (TestResult.fail (pyJoin commaSep (missingNames calls) ++ sha1MsgSuffix))) ∧
    (missingNames calls = [] ↔
      ∀ c ∈ calls, isMavenJarB c = true → hasSha1B c = true) := by
  have hscan := shaScanCalls_char calls [] hsafe
  rw [missingEntries_eq_map_some calls hsafe] at hscan
  rw [List.nil_append] at hscan
  have houtcome : sha1TestOutcome calls =
      (if (missingNames calls).length > 0 then
        Except.ok (TestResult.fail (pyJoin commaSep (missingNames calls) ++ sha1MsgSuffix))
       else Except.ok TestResult.pass) := by
    simp only [sha1TestOutcome, hscan, List.length_map]
    by_cases hlen : (missingNames calls).length > 0
    · rw [if_pos hlen, if_pos hlen, optJoinable_map_some]
    · rw [if_neg hlen, if_neg hlen]
  refine ⟨?_, ?_, missingNames_nil_iff calls hsafe⟩
  · rw [houtcome]
    by_cases hnil : missingNames calls = []
    · have hcond : ¬(missingNames calls).length > 0 := by rw [hnil]; simp
      rw [if_neg hcond]
      exact iff_of_true rfl ((missingNames_nil_iff calls hsafe).mp hnil)
    · rw [if_pos (by
        cases hm : missingNames calls with
        | nil => exact absurd hm hnil
        | cons x t => simp)]
      constructor
      · intro h; cases h
      · intro h; exact absurd ((missingNames_nil_iff calls hsafe).mpr h) hnil
  · intro hne
    rw [houtcome]
    rw [if_pos (by
      cases hm : missingNames calls with
      | nil => exact absurd hm hne
      | cons x t => simp)]

/-- Witness for C6 amended: of two declarations, exactly `guava` lacks its
checksum and the failure message names exactly it. -/
theorem claim6_witness :
    missingNames callsOneMissing = [guavaStr] ∧
    sha1TestOutcome callsOneMissing =
      Except.ok (TestResult.fail (pyJoin commaSep (missingNames callsOneMissing) ++ sha1MsgSuffix)) :=
  ⟨by decide, (claim6_amended callsOneMissing (by decide)).2.1 (by decide)⟩

/-- C3 counterexample: the coordinate `"a:b:1:jar"` has four
colon-separated fields, yet `maven_dependency_xml` does not return a block
with `<type>` and `<classifier>` — the `%`-format on `CLASSIFIER_DEP_BLOCK`
raises `TypeError` (four arguments for five placeholders). -/
theorem claim3_cex :
    (pySplit colonc c3bad).length = 4 ∧
    mavenDependencyXml c3bad = Except.error PyError.typeError := by
  exact ⟨by decide, by decide⟩

/-- C3 amended: exactly three fields yield a block with neither `<type>` nor
`<classifier>` (for coordinates free of `'<'` and newline); exactly five
fields yield a block with both; any other field count raises `TypeError`. -/
theorem claim3_amended (s : String) :
    ((pySplit colonc s).length = 3 →
      ∃ out, mavenDependencyXml s = Except.ok out ∧
        (cleanStr s = true →
          containsSub typeTag out = false ∧ containsSub classifierTag out = false)) ∧
    ((pySplit colonc s).length = 5 →
      ∃ out, mavenDependencyXml s = Except.ok out ∧
        containsSub typeTag out = true ∧ containsSub classifierTag out = true) ∧
    (¬(pySplit colonc s).length = 3 → ¬(pySplit colonc s).length = 5 →
      mavenDependencyXml s = Except.error PyError.typeError) := by
  refine ⟨?_, ?_, ?_⟩
  · intro h3
    obtain ⟨g, a, v, hl⟩ := list_eq_three _ h3
    refine ⟨indentLines (depBlockText g a v), by simp [mavenDependencyXml, hl], ?_⟩
    intro hclean
    have hcs : ∀ c ∈ s.data, ¬c = '<' ∧ ¬c = nlc := by
      simpa [cleanStr] using hclean
    have hfield : ∀ fld : String, fld ∈ pySplit colonc s →
        '<' ∉ fld.data ∧ nlc ∉ fld.data := by
      intro fld hf
      constructor
      · intro hm; exact (hcs '<' (pySplit_field_chars s fld hf '<' hm)).1 rfl
      · intro hm; exact (hcs nlc (pySplit_field_chars s fld hf nlc hm)).2 rfl
    have hg := hfield g (by rw [hl]; simp)
    have ha := hfield a (by rw [hl]; simp)
    have hv := hfield v (by rw [hl]; simp)
    constructor
    · apply containsSub_false_of_count
      simp only [countSub]
      rw [indentLines_data]
      simp only [depBlockText, String.data_append, indentInsert_append, List.append_assoc]
      rw [indentInsert_of_no_nl g.data hg.2, indentInsert_of_no_nl a.data ha.2,
        indentInsert_of_no_nl v.data hv.2]
      rw [countSubList_append_ok typeTag.data (by decide) sp4.data _ (by decide)]
      rw [countSubList_append_ok typeTag.data (by decide) (indentInsert dSeg1.data) _ (by decide)]
      rw [countSubList_append_heads typeTag.data g.data _ '<' rfl hg.1]
      rw [countSubList_append_ok typeTag.data (by decide) (indentInsert dSeg2.data) _ (by decide)]
      rw [countSubList_append_heads typeTag.data a.data _ '<' rfl ha.1]
      rw [countSubList_append_ok typeTag.data (by decide) (indentInsert dSeg3.data) _ (by decide)]
      rw [countSubList_append_heads typeTag.data v.data _ '<' rfl hv.1]
      rw [countSubList_zero_heads typeTag.data g.data '<' rfl hg.1,
        countSubList_zero_heads typeTag.data a.data '<' rfl ha.1,
        countSubList_zero_heads typeTag.data v.data '<' rfl hv.1]
      decide
    · apply containsSub_false_of_count
      simp only [countSub]
      rw [indentLines_data]
      simp only [depBlockText, String.data_append, indentInsert_append, List.append_assoc]
      rw [indentInsert_of_no_nl g.data hg.2, indentInsert_of_no_nl a.data ha.2,
        indentInsert_of_no_nl v.data hv.2]
      rw [countSubList_append_ok classifierTag.data (by decide) sp4.data _ (by decide)]
      rw [countSubList_append_ok classifierTag.data (by decide) (indentInsert dSeg1.data) _ (by decide)]
      rw [countSubList_append_heads classifierTag.data g.data _ '<' rfl hg.1]
      rw [countSubList_append_ok classifierTag.data (by decide) (indentInsert dSeg2.data) _ (by decide)]
      rw [countSubList_append_heads classifierTag.data a.data _ '<' rfl ha.1]
      rw [countSubList_append_ok classifierTag.data (by decide) (indentInsert dSeg3.data) _ (by decide)]
      rw [countSubList_append_heads classifierTag.data v.data _ '<' rfl hv.1]
      rw [countSubList_zero_heads classifierTag.data g.data '<' rfl hg.1,
        countSubList_zero_heads classifierTag.data a.data '<' rfl ha.1,
        countSubList_zero_heads classifierTag.data v.data '<' rfl hv.1]
      decide
  · intro h5
    obtain ⟨g, a, v, t, c, hl⟩ := list_eq_five _ h5
    refine ⟨indentLines (classifierDepBlockText g a v t c),
      by simp [mavenDependencyXml, hl], ?_, ?_⟩
    · simp only [containsSub]
      rw [indentLines_data]
      simp only [classifierDepBlockText, String.data_append, indentInsert_append,
        List.append_assoc]
      apply containsSubList_append_right
      apply containsSubList_append_right
      apply containsSubList_append_right
      apply containsSubList_append_right
      apply containsSubList_append_right
      apply containsSubList_append_right
      apply containsSubList_append_right
      apply containsSubList_append_left
      decide
    · simp only [containsSub]
      rw [indentLines_data]
      simp only [classifierDepBlockText, String.data_append, indentInsert_append,
        List.append_assoc]
      apply containsSubList_append_right
      apply containsSubList_append_right
      apply containsSubList_append_right
      apply containsSubList_append_right
      apply containsSubList_append_right
      apply containsSubList_append_right
      apply containsSubList_append_right
      apply containsSubList_append_right
      apply containsSubList_append_right
      apply containsSubList_append_left
      decide
  · intro h3 h5
    cases hl : pySplit colonc s with
    | nil => unfold mavenDependencyXml; rw [hl]
    | cons a1 t1 =>
      cases t1 with
      | nil => unfold mavenDependencyXml; rw [hl]
      | cons a2 t2 =>
        cases t2 with
        | nil => unfold mavenDependencyXml; rw [hl]
        | cons a3 t3 =>
          cases t3 with
          | nil => exact absurd (by rw [hl]; rfl) h3
          | cons a4 t4 =>
            cases t4 with
            | nil => unfold mavenDependencyXml; rw [hl]
            | cons a5 t5 =>
              cases t5 with
              | nil => exact absurd (by rw [hl]; rfl) h5
              | cons a6 t6 => unfold mavenDependencyXml; rw [hl]

/-- Witness for C3 amended: a clean three-field coordinate renders with
neither element, a five-field one with both, and a four-field one raises. -/
theorem claim3_witness :
    (∃ out, mavenDependencyXml c3three = Except.ok out ∧
      containsSub typeTag out = false ∧ containsSub classifierTag out = false) ∧
    (∃ out, mavenDependencyXml c3five = Except.ok out ∧
      containsSub typeTag out = true ∧ containsSub classifierTag out = true) ∧
    mavenDependencyXml c3bad = Except.error PyError.typeError := by
  refine ⟨?_, ?_, ?_⟩
  · obtain ⟨out, hout, hneg⟩ := (claim3_amended c3three).1 (by decide)
    exact ⟨out, hout, hneg (by decide)⟩
  · exact (claim3_amended c3five).2.1 (by decide)
  · exact (claim3_amended c3bad).2.2 (by decide) (by decide)

/-- C9: `generate_pom` on coordinate `com.google.dagger:x:1.0`, metadata
`{name: X, artifact: x}`, the single dependency
`com.google.dagger:dagger:1.0` and version `1.0` yields a descriptor with
exactly one `<dependency>` block — the indented block for group
`com.google.dagger`, artifact `dagger`, version `1.0` — and with
project-level `<artifactId>x</artifactId>` and `<version>1.0</version>`. -/
theorem claim9_concrete_descriptor :
    generatePom c9coord mdX [ c9dep] ver10 = Except.ok c9out ∧
    countSub depTag c9out = 1 ∧
    containsSub c9block c9out = true ∧
    countSub artifactXTag c9out = 1 ∧
    containsSub version10Tag c9out = true := by
  refine ⟨rfl, by decide, by decide, by decide, by decide⟩

end DaggerPoms
